import Mathlib

/-!
# Verification of the batch-generation coordination core of `dalle2_cli`

Shallow embedding of the batch/worker coordination logic of the repository:

* `src/dalle_cli_enhanced.py` — manual batch splitting against the
  per-call image cap (`MAX_PER_REQUEST`), the loop in
  `generate_image_batch`;
* `src/dalle_workers.py` — `WorkerTask` / `WorkerResult` /
  `WorkerPool._process_single_task` retry-by-requeue logic,
  `WorkerPool.process_tasks_async`, `BatchProcessor.generate_batch`;
* `src/core/dalle_api_v2.py` — `EnhancedImageGenerator.generate_stream`
  (semaphore-bounded concurrency, `asyncio.as_completed` emission order);
* `src/core/dalle_api.py` — `DALLEWorker._sync_generate` /
  `_sync_variation` / `_sync_edit` result construction and the
  `DALLEAPIManager` fixed worker-loop pool and its `stop`.

Machine floats of the Python cost tables are modelled as rationals.
The file is organized as definitions first, then lemmas and the claim
theorems.
-/

namespace DalleSpec

/-! ## Definitions

### RequestSplitter — `dalle_cli_enhanced.py`, `generate_image_batch`

The code computes `num_batches = math.ceil(num_images / max_per_request)`
and then loops `for batch_num in range(num_batches)` with
`batch_size = min(num_images - image_count, max_per_request)`,
where `image_count` accumulates the images of the finished batches. -/

/-- `math.ceil(n / cap)` on naturals, as the code's `num_batches`. -/
def numBatches (n cap : Nat) : Nat := (n + cap - 1) / cap

/-- The batch loop of `generate_image_batch`: `k` iterations remaining,
`consumed` images already generated (`image_count`); each iteration emits
`batch_size = min (n - consumed) cap`. -/
def batchLoop (n cap : Nat) : Nat → Nat → List Nat
  | 0, _ => []
  | k + 1, consumed =>
      min (n - consumed) cap :: batchLoop n cap k (consumed + min (n - consumed) cap)

/-- The list of per-batch request sizes produced for one prompt of
`n` desired images under per-call cap `cap`. -/
def batchSizes (n cap : Nat) : List Nat := batchLoop n cap (numBatches n cap) 0

/-- One unit of dispatch: stable index, prompt, images requested
(the spec's `SubCall`). -/
structure SubCall where
  index : Nat
  prompt : String
  imagesRequested : Nat
  deriving Repr, DecidableEq

/-- Assign strictly increasing indices, starting at `i`, to a list of
(prompt, size) pairs. -/
def assignIdx : Nat → List (String × Nat) → List SubCall
  | _, [] => []
  | i, (p, s) :: rest => ⟨i, p, s⟩ :: assignIdx (i + 1) rest

/-- Per-prompt splitting, prompt-major: each prompt contributes the batch
sizes of the single-prompt loop. -/
def splitSizes (count cap : Nat) : List String → List (String × Nat)
  | [] => []
  | p :: ps => (batchSizes count cap).map (fun s => (p, s)) ++ splitSizes count cap ps

/-- Modelled from the spec: the multi-prompt `RequestSplitter.split`
(spec §4.1) is not one function in `src/` — the code splits a single
prompt in `generate_image_batch`; prompt-major composition with
sequential indices follows the spec's words, using the source's
single-prompt batch sizes. -/
def split (prompts : List String) (count cap : Nat) : List SubCall :=
  assignIdx 0 (splitSizes count cap prompts)

/-! ### WorkerPool — `dalle_workers.py`

`WorkerTask` carries `id`, `retry_count` (starts at 0) and `max_retries`;
the `task_type`, `payload` and `priority` fields are opaque to the retry
logic and are omitted (the pool seeds the priority queue with
`priority = i`, i.e. in index order, so queue order is list order here).

`_process_single_task` (lines 185–228) calls `processor_func`; on success
it returns a `COMPLETED` `WorkerResult`; on any exception it re-queues
the same task with `retry_count` incremented when
`retry_count < max_retries`, and returns an `ERROR` `WorkerResult` either
way.  The exception is modelled by the spec's error taxonomy `ErrorKind`
so that (non-)use of the error kind in the retry decision is visible;
the code never inspects the exception. -/

/-- Spec §7 error taxonomy; the worker code raises/stores plain Python
exceptions, classified here only so the retry decision's independence of
the kind can be stated. -/
inductive ErrorKind
  | rateLimited
  | transient
  | invalidRequest
  | quotaExhausted
  | cancelled
  | unknown
  deriving Repr, DecidableEq

/-- `WorkerTask` of `dalle_workers.py` (retry-relevant fields). -/
structure WorkerTask where
  id : Nat
  retryCount : Nat
  maxRetries : Nat
  deriving Repr, DecidableEq

/-- `WorkerStatus` values produced by `_process_single_task`. -/
inductive WStatus
  | completed
  | error
  deriving Repr, DecidableEq

/-- `WorkerResult` of `dalle_workers.py` (the `duration` float is not
modelled). -/
structure WorkerResult (E R : Type) where
  taskId : Nat
  status : WStatus
  result : Option R
  err : Option E
  deriving Repr, DecidableEq

/-- `WorkerPool._process_single_task`: returns the `WorkerResult` of this
attempt and the re-queued task, if any.  On an exception the task is
re-queued (same record, `retry_count` incremented) iff
`retry_count < max_retries`; the attempt's result is `ERROR` either way. -/
def processSingleTask {E R : Type} (procFn : Nat → Except E R) (t : WorkerTask) :
    WorkerResult E R × Option WorkerTask :=
  match procFn t.id with
  | .ok r => (⟨t.id, .completed, some r, none⟩, none)
  | .error e =>
      if t.retryCount < t.maxRetries then
        (⟨t.id, .error, none, some e⟩, some ⟨t.id, t.retryCount + 1, t.maxRetries⟩)
      else
        (⟨t.id, .error, none, some e⟩, none)

/-- Remaining attempt budget of a task; positive, and strictly decreased
by a re-queue. -/
def taskBudget (t : WorkerTask) : Nat := t.maxRetries - t.retryCount + 1

/-- Total remaining attempt budget of a queue: an upper bound on the
number of attempts the pool can still make, used as fuel for `drain`. -/
def queueMeasure (q : List WorkerTask) : Nat :=
  q.foldr (fun t a => a + taskBudget t) 0

/-- The queue after one attempt: the `submit_task` re-queue of
`_process_single_task` appends the re-queued task at the back. -/
def nextQueue (rest : List WorkerTask) : Option WorkerTask → List WorkerTask
  | none => rest
  | some t2 => rest ++ [t2]

/-- Fuelled worker loop: process the head task, collect its result,
continue with the (possibly re-queue-extended) queue.  The fuel is only
a termination bound; `queueMeasure` fuel is always sufficient
(`drainGo_congr`). -/
def drainGo {E R : Type} (procFn : Nat → Except E R) : Nat → List WorkerTask →
    List (WorkerResult E R)
  | _, [] => []
  | 0, _ :: _ => []
  | fuel + 1, t :: rest =>
      (processSingleTask procFn t).1 ::
        drainGo procFn fuel (nextQueue rest (processSingleTask procFn t).2)

/-- The workers of the pool repeatedly pull tasks until the queue is
empty; a re-queued task (`submit_task` from inside
`_process_single_task`) goes to the back of the queue and is processed
in turn.  Sequentialized here in queue order; one `WorkerResult` is
produced per attempt, exactly as `process_tasks_async` collects them. -/
def drain {E R : Type} (procFn : Nat → Except E R) (q : List WorkerTask) :
    List (WorkerResult E R) :=
  drainGo procFn (queueMeasure q) q

/-- A backend stub that always fails with exception kind `e`. -/
def alwaysFail {R : Type} (e : ErrorKind) : Nat → Except ErrorKind R := fun _ => .error e

/-- `BatchProcessor.generate_batch` result collection (lines 394–414):
the success payloads of the worker results. -/
def generateBatchSuccessful {E R : Type} (results : List (WorkerResult E R)) : List R :=
  results.filterMap (fun r => if r.status = WStatus.completed then r.result else none)

/-- The failed list built (and printed) by `generate_batch`. -/
def generateBatchFailed {E R : Type} (results : List (WorkerResult E R)) :
    List (Nat × Option E) :=
  (results.filter (fun r => ¬ r.status = WStatus.completed)).map (fun r => (r.taskId, r.err))

/-- The value `generate_batch` actually returns to its caller: the
successful payloads only. -/
def generateBatchReturn {E R : Type} (results : List (WorkerResult E R)) : List R :=
  generateBatchSuccessful results

/-! ### `generate_stream` — `core/dalle_api_v2.py`, lines 258–289

One asyncio task per prompt; each task does `async with semaphore:` around
the backend call (`generate_with_retry`).  The semaphore is created with
`asyncio.Semaphore(max_concurrent)`.  Modelled as a transition system:
a task may start executing the backend call only by taking a permit, and
returns the permit when its call finishes.  Completion order is
unconstrained (tasks race). -/

/-- State of one `generate_stream` run: task indices not yet started,
indices currently executing the backend call (inside the semaphore),
finished indices, and free semaphore permits. -/
structure StreamState where
  waiting : List Nat
  running : List Nat
  done : List Nat
  permits : Nat
  deriving Repr, DecidableEq

/-- Initial state: one task per prompt (`for i, prompt in
enumerate(prompts)`), none running, `max_concurrent` free permits. -/
def streamInit (maxConcurrent n : Nat) : StreamState :=
  ⟨List.range n, [], [], maxConcurrent⟩

/-- Scheduler steps: any waiting task may start if a permit is free
(`async with semaphore` acquires one); any running task may finish,
releasing its permit. -/
inductive StreamStep : StreamState → StreamState → Prop
  | start (w₁ w₂ : List Nat) (i : Nat) (r d : List Nat) (p : Nat) :
      StreamStep ⟨w₁ ++ i :: w₂, r, d, p + 1⟩ ⟨w₁ ++ w₂, i :: r, d, p⟩
  | finish (w : List Nat) (r₁ r₂ : List Nat) (i : Nat) (d : List Nat) (p : Nat) :
      StreamStep ⟨w, r₁ ++ i :: r₂, d, p⟩ ⟨w, r₁ ++ r₂, i :: d, p + 1⟩

/-- States reachable in a `generate_stream` run over `n` prompts. -/
inductive StreamReachable (maxConcurrent n : Nat) : StreamState → Prop
  | init : StreamReachable maxConcurrent n (streamInit maxConcurrent n)
  | step {s s' : StreamState} : StreamReachable maxConcurrent n s → StreamStep s s' →
      StreamReachable maxConcurrent n s'

/-! ### `DALLEAPIManager` — `core/dalle_api.py`, lines 190–252

A fixed list `workers = [DALLEWorker(api_key, i) for i in range(max_workers)]`
and one `_worker_loop` task per worker; each loop awaits one queue item at
a time and runs it on its worker (`is_busy` set while executing). -/

/-- Manager state: pending queue items and each worker's `is_busy` flag. -/
structure MgrState where
  queue : List Nat
  workers : List Bool
  deriving Repr, DecidableEq

/-- `DALLEAPIManager.__init__`/`start`: `max_workers` idle workers. -/
def mgrInit (maxWorkers : Nat) (q : List Nat) : MgrState :=
  ⟨q, List.replicate maxWorkers false⟩

/-- A worker loop takes the next queue item (only when idle — each loop
processes one request at a time), or finishes its current call. -/
inductive MgrStep : MgrState → MgrState → Prop
  | claimTask (t : Nat) (rest : List Nat) (ws : List Bool) (i : Nat)
      (h : ws.get? i = some false) :
      MgrStep ⟨t :: rest, ws⟩ ⟨rest, ws.set i true⟩
  | finishTask (q : List Nat) (ws : List Bool) (i : Nat)
      (h : ws.get? i = some true) :
      MgrStep ⟨q, ws⟩ ⟨q, ws.set i false⟩

/-- States reachable by a `DALLEAPIManager` with `maxWorkers` workers. -/
inductive MgrReachable (maxWorkers : Nat) (q : List Nat) : MgrState → Prop
  | init : MgrReachable maxWorkers q (mgrInit maxWorkers q)
  | step {s s' : MgrState} : MgrReachable maxWorkers q s → MgrStep s s' →
      MgrReachable maxWorkers q s'

/-- `get_busy_workers`: the number of simultaneously in-flight calls. -/
def busyWorkers (s : MgrState) : Nat := s.workers.count true

/-! ### `stop` / cancellation — `dalle_workers.py` lines 119–126 and
`core/dalle_api.py` lines 207–211

`WorkerPool.stop` sets `shutdown_flag` and shuts the executor down;
`DALLEAPIManager.stop` sets `_running = False` and cancels the worker
loop tasks.  Neither touches the queue of not-yet-processed items, and
neither produces any record for them; there is no `BatchOutcome`,
`wasCancelled` flag, or synthetic `Cancelled` failure anywhere in the
code. -/

/-- A running pool/manager: pending queue items, results already
delivered (index, success flag), and the running/shutdown flag. -/
structure RunState where
  queue : List Nat
  results : List (Nat × Bool)
  running : Bool
  deriving Repr, DecidableEq

/-- `stop`: clears the running flag and nothing else — queued items are
dropped silently, already-delivered results stay as they are. -/
def stopRun (s : RunState) : RunState := { s with running := false }

/-- Processing step of the worker loops: only while running, the head
queue item is processed and its result recorded. -/
inductive RunStep (outcome : Nat → Bool) : RunState → RunState → Prop
  | proc (t : Nat) (rest : List Nat) (rs : List (Nat × Bool)) :
      RunStep outcome ⟨t :: rest, rs, true⟩ ⟨rest, rs ++ [(t, outcome t)], true⟩

/-! ### Emission order — `generate_stream` consumers

`generate_stream` yields results through `asyncio.as_completed(tasks)`:
strictly in completion order.  Each yielded dict carries the task's
original `index`.  The consumer (`examples/demo_v2.py`) appends them in
arrival order. -/

/-- The sequence of `(index, success)` records yielded by
`generate_stream`, given the completion order of the tasks. -/
def streamEmissions (success : Nat → Bool) (completionOrder : List Nat) :
    List (Nat × Bool) :=
  completionOrder.map (fun i => (i, success i))

/-! ### `DALLEWorker._sync_generate` / `_sync_variation` / `_sync_edit` —
`core/dalle_api.py` lines 70–187

Each wraps the entire vendor call in `try/except Exception` and returns a
`GenerationResult` either way.  The vendor client (and the file reads of
variation/edit) is the injected `call` function; its failure carries the
raised exception's message.  Python float costs are modelled as
rationals. -/

/-- `GenerationRequest` (fields used by `_sync_generate`). -/
structure GenRequest where
  prompt : String
  size : String
  quality : String
  style : String
  n : Nat
  deriving Repr, DecidableEq

/-- `VariationRequest`. -/
structure VarRequest where
  imagePath : String
  size : String
  n : Nat
  deriving Repr, DecidableEq

/-- `EditRequest`. -/
structure EditRequest where
  imagePath : String
  maskPath : Option String
  prompt : String
  size : String
  n : Nat
  deriving Repr, DecidableEq

/-- `GenerationResult` dataclass (defaults: `image_urls = None`,
`error = None`, `cost = 0.0`, `request_id = None`). -/
structure GenerationResult where
  success : Bool
  image_urls : Option (List String)
  error : Option String
  cost : ℚ
  request_id : Option String
  deriving Repr, DecidableEq

/-- `_calculate_cost`: `base_costs.get(size, {}).get(quality, 0.04) * n`. -/
def calculateCost (size quality : String) (n : Nat) : ℚ :=
  (if size = "1024x1024" then
    (if quality = "standard" then (4 : ℚ) / 100
     else if quality = "hd" then (8 : ℚ) / 100 else (4 : ℚ) / 100)
   else if size = "1024x1792" then
    (if quality = "standard" then (8 : ℚ) / 100
     else if quality = "hd" then (12 : ℚ) / 100 else (4 : ℚ) / 100)
   else if size = "1792x1024" then
    (if quality = "standard" then (8 : ℚ) / 100
     else if quality = "hd" then (12 : ℚ) / 100 else (4 : ℚ) / 100)
   else (4 : ℚ) / 100) * n

/-- `_calculate_variation_cost`: `costs.get(size, 0.02) * n`. -/
def calculateVariationCost (size : String) (n : Nat) : ℚ :=
  (if size = "1024x1024" then (2 : ℚ) / 100
   else if size = "512x512" then (18 : ℚ) / 1000
   else if size = "256x256" then (16 : ℚ) / 1000
   else (2 : ℚ) / 100) * n

/-- `_calculate_edit_cost`: same table as variation. -/
def calculateEditCost (size : String) (n : Nat) : ℚ :=
  calculateVariationCost size n

/-- `_sync_generate`: on a successful vendor call, urls and first image's
revised prompt are extracted and the cost computed; any exception yields
`success=False` with the message. -/
def syncGenerate (call : GenRequest → Except String (List String × Option String))
    (req : GenRequest) : GenerationResult :=
  match call req with
  | .ok (urls, rev) =>
      ⟨true, some urls, none, calculateCost req.size req.quality req.n, rev⟩
  | .error e => ⟨false, none, some e, 0, none⟩

/-- `_sync_variation` (the `open` of the image file is part of the
`try`, so its failure is also an exception of `call`). -/
def syncVariation (call : VarRequest → Except String (List String))
    (req : VarRequest) : GenerationResult :=
  match call req with
  | .ok urls => ⟨true, some urls, none, calculateVariationCost req.size req.n, none⟩
  | .error e => ⟨false, none, some e, 0, none⟩

/-- `_sync_edit`. -/
def syncEdit (call : EditRequest → Except String (List String))
    (req : EditRequest) : GenerationResult :=
  match call req with
  | .ok urls => ⟨true, some urls, none, calculateEditCost req.size req.n, none⟩
  | .error e => ⟨false, none, some e, 0, none⟩

/-! ## Lemmas

### Splitter lemmas -/

example : batchSizes 10 4 = [4, 4, 2] := by decide
example : numBatches 10 4 = 3 := by decide
example : batchSizes 4 4 = [4] := by decide
example : batchSizes 0 4 = [] := by decide

lemma batchLoop_shift (n cap : Nat) :
    ∀ (k c d : Nat), batchLoop n cap k (c + d) = batchLoop (n - c) cap k d := by
  intro k
  induction k with
  | zero => intro c d; rfl
  | succ k ih =>
      intro c d
      show min (n - (c + d)) cap :: _ = min (n - c - d) cap :: _
      have hsub : n - (c + d) = n - c - d := by omega
      rw [hsub]
      have := ih c (d + min (n - c - d) cap)
      rw [show c + d + min (n - c - d) cap = c + (d + min (n - c - d) cap) by omega]
      rw [this]

lemma batchLoop_length (n cap : Nat) :
    ∀ (k c : Nat), (batchLoop n cap k c).length = k := by
  intro k
  induction k with
  | zero => intro c; rfl
  | succ k ih => intro c; simpa [batchLoop] using ih _

/-- Characterization of the batch loop started at `consumed = 0`: with a
positive cap and `k·cap < r ≤ (k+1)·cap`, the loop emits `k` full
batches of `cap` followed by the positive remainder. -/
lemma batchLoop_char (cap : Nat) (hcap : 0 < cap) :
    ∀ (k r : Nat), 0 < r → r ≤ (k + 1) * cap → k * cap < r →
      batchLoop r cap (k + 1) 0 = List.replicate k cap ++ [r - cap * k] := by
  intro k
  induction k with
  | zero =>
      intro r hr hle _
      have hle2 : r ≤ cap := by simpa using hle
      show min (r - 0) cap :: batchLoop r cap 0 (0 + min (r - 0) cap) = _
      have hm : min (r - 0) cap = r := by omega
      simp [hm, batchLoop]
      omega
  | succ m ih =>
      intro r hr hle hlow
      have hsucc1 : (m + 1) * cap = m * cap + cap := Nat.succ_mul m cap
      have hsucc2 : (m + 1 + 1) * cap = (m + 1) * cap + cap := Nat.succ_mul (m + 1) cap
      have hgt : cap < r := by omega
      have hmin : min (r - 0) cap = cap := by omega
      show min (r - 0) cap :: batchLoop r cap (m + 1) (0 + min (r - 0) cap) = _
      rw [hmin]
      have hshift : batchLoop r cap (m + 1) (0 + cap) = batchLoop (r - 0) cap (m + 1) cap := by
        simp
      have hshift2 : batchLoop (r - 0) cap (m + 1) cap =
          batchLoop (r - 0 - cap) cap (m + 1) 0 := by
        have := batchLoop_shift (r - 0) cap (m + 1) cap 0
        simpa using this
      rw [hshift, hshift2]
      have hih := ih (r - 0 - cap) (by omega) (by omega) (by omega)
      rw [hih]
      have h3 : r - 0 - cap - cap * m = r - cap * (m + 1) := by
        have : cap * (m + 1) = cap * m + cap := by ring
        omega
      rw [h3]
      rfl

lemma numBatches_mul_ge (n cap : Nat) (hcap : 0 < cap) : n ≤ numBatches n cap * cap := by
  unfold numBatches
  have hdm := Nat.div_add_mod (n + cap - 1) cap
  have hlt : (n + cap - 1) % cap < cap := Nat.mod_lt _ hcap
  rw [mul_comm]
  omega

lemma numBatches_pred_mul_lt (n cap : Nat) (hcap : 0 < cap) (hn : 0 < n) :
    (numBatches n cap - 1) * cap < n := by
  unfold numBatches
  have hle : ((n + cap - 1) / cap) * cap ≤ n + cap - 1 := Nat.div_mul_le_self _ _
  rw [Nat.sub_mul, one_mul]
  omega

lemma numBatches_pos (n cap : Nat) (hcap : 0 < cap) (hn : 0 < n) : 0 < numBatches n cap := by
  unfold numBatches
  apply Nat.div_pos <;> omega

/-- The code's batch sizes for one prompt: `k-1` full batches of `cap`
followed by the positive remainder, where `k = numBatches n cap`. -/
lemma batchSizes_char (n cap : Nat) (hcap : 0 < cap) (hn : 0 < n) :
    batchSizes n cap =
      List.replicate (numBatches n cap - 1) cap ++
        [n - cap * (numBatches n cap - 1)] := by
  have hpos := numBatches_pos n cap hcap hn
  obtain ⟨k, hk⟩ : ∃ k, numBatches n cap = k + 1 := ⟨numBatches n cap - 1, by omega⟩
  have hge := numBatches_mul_ge n cap hcap
  have hlt := numBatches_pred_mul_lt n cap hcap hn
  unfold batchSizes
  rw [hk] at hge hlt ⊢
  simp only [Nat.add_sub_cancel] at hlt ⊢
  exact batchLoop_char cap hcap k n hn hge hlt

lemma sum_replicate_nat (k a : Nat) : (List.replicate k a).sum = k * a := by
  induction k with
  | zero => simp
  | succ k ih => simp [List.replicate_succ, ih]; ring

lemma batchSizes_sum (n cap : Nat) (hcap : 0 < cap) (hn : 0 < n) :
    (batchSizes n cap).sum = n := by
  rw [batchSizes_char n cap hcap hn]
  rw [List.sum_append, sum_replicate_nat]
  have h2 := numBatches_pred_mul_lt n cap hcap hn
  have hc : cap * (numBatches n cap - 1) = (numBatches n cap - 1) * cap := mul_comm _ _
  simp only [List.sum_cons, List.sum_nil]
  omega

lemma batchSizes_length (n cap : Nat) : (batchSizes n cap).length = numBatches n cap :=
  batchLoop_length n cap _ 0

lemma assignIdx_length :
    ∀ (i : Nat) (l : List (String × Nat)), (assignIdx i l).length = l.length := by
  intro i l
  induction l generalizing i with
  | nil => rfl
  | cons hd tl ih => simp [assignIdx, ih]

lemma assignIdx_map_images :
    ∀ (i : Nat) (l : List (String × Nat)),
      (assignIdx i l).map SubCall.imagesRequested = l.map Prod.snd := by
  intro i l
  induction l generalizing i with
  | nil => rfl
  | cons hd tl ih => simp [assignIdx, ih]

lemma splitSizes_length (count cap : Nat) (prompts : List String) :
    (splitSizes count cap prompts).length = prompts.length * (batchSizes count cap).length := by
  induction prompts with
  | nil => simp [splitSizes]
  | cons p ps ih => simp [splitSizes, ih]; ring

lemma splitSizes_sum (count cap : Nat) (prompts : List String) :
    ((splitSizes count cap prompts).map Prod.snd).sum =
      prompts.length * (batchSizes count cap).sum := by
  induction prompts with
  | nil => simp [splitSizes]
  | cons p ps ih =>
      simp [splitSizes, ih, Function.comp]
      ring

/-! ### Worker pool lemmas -/

lemma queueMeasure_cons (t : WorkerTask) (q : List WorkerTask) :
    queueMeasure (t :: q) = queueMeasure q + taskBudget t := rfl

lemma queueMeasure_append (q₁ q₂ : List WorkerTask) :
    queueMeasure (q₁ ++ q₂) = queueMeasure q₁ + queueMeasure q₂ := by
  induction q₁ with
  | nil => simp [queueMeasure]
  | cons t q ih => simp [queueMeasure_cons, ih]; omega

lemma processSingleTask_requeue {E R : Type} (procFn : Nat → Except E R) (t : WorkerTask)
    (t' : WorkerTask) (h : (processSingleTask procFn t).2 = some t') :
    t'.id = t.id ∧ t'.retryCount = t.retryCount + 1 ∧ t'.maxRetries = t.maxRetries ∧
      t.retryCount < t.maxRetries := by
  unfold processSingleTask at h
  cases hp : procFn t.id with
  | ok r => rw [hp] at h; simp at h
  | error e =>
      rw [hp] at h
      by_cases hr : t.retryCount < t.maxRetries
      · simp [hr] at h
        rcases h with rfl
        exact ⟨rfl, rfl, rfl, hr⟩
      · simp [hr] at h

lemma processSingleTask_taskId {E R : Type} (procFn : Nat → Except E R) (t : WorkerTask) :
    (processSingleTask procFn t).1.taskId = t.id := by
  unfold processSingleTask
  cases procFn t.id with
  | ok r => rfl
  | error e =>
      by_cases hr : t.retryCount < t.maxRetries <;> simp [hr]

lemma nextQueue_measure_lt {E R : Type} (procFn : Nat → Except E R) (t : WorkerTask)
    (rest : List WorkerTask) :
    queueMeasure (nextQueue rest (processSingleTask procFn t).2) <
      queueMeasure (t :: rest) := by
  cases hp : (processSingleTask procFn t).2 with
  | none =>
      rw [nextQueue, queueMeasure_cons]
      unfold taskBudget
      omega
  | some t2 =>
      obtain ⟨hid, hrc, hmr, hlt⟩ := processSingleTask_requeue procFn t t2 hp
      rw [nextQueue, queueMeasure_append, queueMeasure_cons, queueMeasure_cons]
      have h0 : queueMeasure ([] : List WorkerTask) = 0 := rfl
      rw [h0]
      unfold taskBudget
      rw [hrc, hmr]
      omega

lemma queueMeasure_cons_pos (t : WorkerTask) (q : List WorkerTask) :
    0 < queueMeasure (t :: q) := by
  rw [queueMeasure_cons]
  unfold taskBudget
  omega

/-- Any fuel at least the queue's attempt budget gives the same run. -/
lemma drainGo_congr {E R : Type} (procFn : Nat → Except E R) :
    ∀ (f₁ f₂ : Nat) (q : List WorkerTask), queueMeasure q ≤ f₁ → queueMeasure q ≤ f₂ →
      drainGo procFn f₁ q = drainGo procFn f₂ q := by
  intro f₁
  induction f₁ with
  | zero =>
      intro f₂ q h1 h2
      cases q with
      | nil => cases f₂ <;> rfl
      | cons t rest =>
          have := queueMeasure_cons_pos t rest
          omega
  | succ a ih =>
      intro f₂ q h1 h2
      cases q with
      | nil => cases f₂ <;> rfl
      | cons t rest =>
          cases f₂ with
          | zero =>
              have := queueMeasure_cons_pos t rest
              omega
          | succ b =>
              show (processSingleTask procFn t).1 :: _ = (processSingleTask procFn t).1 :: _
              have hlt := nextQueue_measure_lt procFn t rest
              have := ih b (nextQueue rest (processSingleTask procFn t).2)
                (by omega) (by omega)
              rw [this]

lemma drain_nil {E R : Type} (procFn : Nat → Except E R) : drain procFn [] = [] := rfl

lemma drain_cons {E R : Type} (procFn : Nat → Except E R) (t : WorkerTask)
    (rest : List WorkerTask) :
    drain procFn (t :: rest) =
      (processSingleTask procFn t).1 ::
        drain procFn (nextQueue rest (processSingleTask procFn t).2) := by
  unfold drain
  have hpos := queueMeasure_cons_pos t rest
  obtain ⟨m, hm⟩ : ∃ m, queueMeasure (t :: rest) = m + 1 :=
    ⟨queueMeasure (t :: rest) - 1, by omega⟩
  rw [hm]
  show (processSingleTask procFn t).1 :: _ = (processSingleTask procFn t).1 :: _
  have hlt := nextQueue_measure_lt procFn t rest
  rw [drainGo_congr procFn m (queueMeasure (nextQueue rest (processSingleTask procFn t).2))
    (nextQueue rest (processSingleTask procFn t).2) (by omega) (le_refl _)]

lemma processSingleTask_fail {R : Type} (e : ErrorKind) (t : WorkerTask) :
    processSingleTask (alwaysFail (R := R) e) t =
      (⟨t.id, .error, none, some e⟩,
        if t.retryCount < t.maxRetries then some ⟨t.id, t.retryCount + 1, t.maxRetries⟩
        else none) := by
  unfold processSingleTask alwaysFail
  by_cases h : t.retryCount < t.maxRetries <;> simp [h]

/-- A task whose backend call always raises is attempted
`maxRetries - retryCount + 1` times, producing one `ERROR`
`WorkerResult` per attempt. -/
lemma drain_alwaysFail {R : Type} (e : ErrorKind) (id : Nat) :
    ∀ (k rc mr : Nat), mr - rc = k →
      drain (alwaysFail (R := R) e) [⟨id, rc, mr⟩] =
        List.replicate (k + 1) ⟨id, .error, none, some e⟩ := by
  intro k
  induction k with
  | zero =>
      intro rc mr hk
      have hnot : ¬ (rc < mr) := by omega
      rw [drain_cons, processSingleTask_fail]
      simp [hnot, nextQueue, drain_nil, List.replicate]
  | succ k ih =>
      intro rc mr hk
      have hlt : rc < mr := by omega
      rw [drain_cons, processSingleTask_fail]
      simp only [hlt, if_pos]
      have hnq : nextQueue [] (some (⟨id, rc + 1, mr⟩ : WorkerTask)) = [⟨id, rc + 1, mr⟩] :=
        rfl
      rw [hnq, ih (rc + 1) mr (by omega)]
      simp [List.replicate_succ]

/-- Every task in the queue contributes at least one result: no failure
of any task aborts the processing of the others. -/
lemma drain_covers {E R : Type} (procFn : Nat → Except E R) :
    ∀ (n : Nat) (q : List WorkerTask), queueMeasure q ≤ n →
      ∀ t ∈ q, ∃ r ∈ drain procFn q, r.taskId = t.id := by
  intro n
  induction n with
  | zero =>
      intro q hq t ht
      cases q with
      | nil => cases ht
      | cons t0 rest =>
          have := queueMeasure_cons_pos t0 rest
          omega
  | succ n ih =>
      intro q hq t ht
      cases q with
      | nil => cases ht
      | cons t0 rest =>
          rw [drain_cons]
          rcases List.mem_cons.mp ht with rfl | htl
          · exact ⟨(processSingleTask procFn t).1, List.mem_cons_self _ _,
              processSingleTask_taskId procFn t⟩
          · have hlt := nextQueue_measure_lt procFn t0 rest
            have hmem : t ∈ nextQueue rest (processSingleTask procFn t0).2 := by
              cases hp : (processSingleTask procFn t0).2 with
              | none => exact htl
              | some t2 => exact List.mem_append_left _ htl
            obtain ⟨r, hr, hrid⟩ := ih (nextQueue rest (processSingleTask procFn t0).2)
              (by omega) t hmem
            exact ⟨r, List.mem_cons_of_mem _ hr, hrid⟩

/-- When the backend never raises, each task is attempted exactly once
and the results come back in the original queue order. -/
lemma drain_allOk {E R : Type} (procFn : Nat → Except E R)
    (hok : ∀ i, ∃ r, procFn i = .ok r) :
    ∀ q : List WorkerTask,
      (drain procFn q).map (fun r => (r.taskId, r.status)) =
        q.map (fun t => (t.id, WStatus.completed)) := by
  intro q
  induction q with
  | nil => simp [drain_nil]
  | cons t rest ih =>
      obtain ⟨r, hr⟩ := hok t.id
      have hstep : processSingleTask procFn t = (⟨t.id, .completed, some r, none⟩, none) := by
        unfold processSingleTask
        rw [hr]
      rw [drain_cons, hstep]
      simp [nextQueue, ih]

/-! ### Transition system lemmas -/

lemma streamReachable_inv (maxConcurrent n : Nat) (s : StreamState)
    (h : StreamReachable maxConcurrent n s) :
    s.running.length + s.permits = maxConcurrent := by
  induction h with
  | init => simp [streamInit]
  | step hr hstep ih =>
      cases hstep with
      | start w₁ w₂ i r d p => simp at ih ⊢; omega
      | finish w r₁ r₂ i d p => simp at ih ⊢; omega

lemma mgrReachable_length (maxWorkers : Nat) (q : List Nat) (s : MgrState)
    (h : MgrReachable maxWorkers q s) : s.workers.length = maxWorkers := by
  induction h with
  | init => simp [mgrInit]
  | step hr hstep ih =>
      cases hstep with
      | claimTask t rest ws i hw => simpa using ih
      | finishTask q' ws i hw => simpa using ih

lemma streamEmissions_fst (success : Nat → Bool) :
    ∀ completionOrder : List Nat,
      (streamEmissions success completionOrder).map Prod.fst = completionOrder := by
  intro completionOrder
  induction completionOrder with
  | nil => rfl
  | cons i rest ih =>
      simp only [streamEmissions, List.map_cons] at ih ⊢
      rw [ih]

/-! ## Claim theorems -/

/-- C1: in every reachable state of a batch run, the number of sub-calls
simultaneously executing against the backend never exceeds the bound:
the semaphore of `generate_stream` keeps the running set within
`max_concurrent`, and the fixed pool of `DALLEAPIManager` keeps the busy
workers within `max_workers`. -/
theorem c1_concurrency_bound (maxConcurrent n : Nat) (s : StreamState)
    (hs : StreamReachable maxConcurrent n s)
    (maxWorkers : Nat) (q : List Nat) (m : MgrState)
    (hm : MgrReachable maxWorkers q m) :
    s.running.length ≤ maxConcurrent ∧ busyWorkers m ≤ maxWorkers := by
  constructor
  · have h := streamReachable_inv maxConcurrent n s hs
    omega
  · have hlen := mgrReachable_length maxWorkers q m hm
    calc busyWorkers m ≤ m.workers.length := List.count_le_length _ _
      _ = maxWorkers := hlen

/-- Witness for C1 at the initial states of a 5-prompt stream with
`max_concurrent = 3` and a 2-item manager queue with `max_workers = 4`. -/
theorem c1_concurrency_bound_witness :
    (streamInit 3 5).running.length ≤ 3 ∧ busyWorkers (mgrInit 4 [0, 1]) ≤ 4 :=
  c1_concurrency_bound 3 5 _ StreamReachable.init 4 [0, 1] _ MgrReachable.init

/-- C2: for a valid request (non-empty prompts, positive count) and a
positive cap, splitting yields exactly
`len(prompts) * ceil(countPerPrompt / cap)` sub-calls whose requested
images sum to `len(prompts) * countPerPrompt`. -/
theorem c2_split_completeness (prompts : List String) (count cap : Nat)
    (h1 : prompts ≠ []) (h2 : 0 < count) (h3 : 0 < cap) :
    (split prompts count cap).length = prompts.length * numBatches count cap ∧
    ((split prompts count cap).map SubCall.imagesRequested).sum = prompts.length * count := by
  unfold split
  constructor
  · rw [assignIdx_length, splitSizes_length, batchSizes_length]
  · rw [assignIdx_map_images, splitSizes_sum, batchSizes_sum count cap h3 h2]

/-- Witness for C2: two prompts, 10 images each, cap 4. -/
theorem c2_split_completeness_witness :
    (split ["a", "b"] 10 4).length = (["a", "b"] : List String).length * numBatches 10 4 ∧
    ((split ["a", "b"] 10 4).map SubCall.imagesRequested).sum =
      (["a", "b"] : List String).length * 10 :=
  c2_split_completeness ["a", "b"] 10 4 (by decide) (by decide) (by decide)

/-- C9: for each prompt, the emitted sub-call sizes are `k-1` full
batches of exactly `cap` followed by the positive remainder
`count - cap·(k-1)`, and every size lies in `[1, cap]`. -/
theorem c9_split_cap_respected (count cap : Nat) (h2 : 0 < count) (h3 : 0 < cap) :
    batchSizes count cap =
      List.replicate (numBatches count cap - 1) cap ++
        [count - cap * (numBatches count cap - 1)] ∧
    1 ≤ count - cap * (numBatches count cap - 1) ∧
    count - cap * (numBatches count cap - 1) ≤ cap ∧
    ∀ s ∈ batchSizes count cap, 1 ≤ s ∧ s ≤ cap := by
  have hchar := batchSizes_char count cap h3 h2
  have hge := numBatches_mul_ge count cap h3
  have hlt := numBatches_pred_mul_lt count cap h3 h2
  have hpos := numBatches_pos count cap h3 h2
  have hc : cap * (numBatches count cap - 1) = (numBatches count cap - 1) * cap :=
    mul_comm _ _
  have hmul : numBatches count cap * cap = (numBatches count cap - 1) * cap + cap := by
    have hk : numBatches count cap = (numBatches count cap - 1) + 1 := by omega
    calc numBatches count cap * cap = ((numBatches count cap - 1) + 1) * cap := by rw [← hk]
      _ = (numBatches count cap - 1) * cap + cap := Nat.succ_mul _ _
  refine ⟨hchar, by omega, by omega, ?_⟩
  intro s hs
  rw [hchar] at hs
  rcases List.mem_append.mp hs with hrep | hlast
  · have := List.eq_of_mem_replicate hrep
    omega
  · have := List.mem_singleton.mp hlast
    omega

/-- Witness for C9 at `count = 10`, `cap = 4`. -/
theorem c9_split_cap_respected_witness :
    batchSizes 10 4 =
      List.replicate (numBatches 10 4 - 1) 4 ++ [10 - 4 * (numBatches 10 4 - 1)] ∧
    1 ≤ 10 - 4 * (numBatches 10 4 - 1) ∧
    10 - 4 * (numBatches 10 4 - 1) ≤ 4 ∧
    ∀ s ∈ batchSizes 10 4, 1 ≤ s ∧ s ≤ 4 :=
  c9_split_cap_respected 10 4 (by decide) (by decide)

/-- C3 counterexample: a sub-call whose backend call always fails with a
retriable `Transient` error under `maxRetries = 1` produces TWO `ERROR`
`WorkerResult` records (one per attempt) — not exactly one terminal
`FailureRecord`; `WorkerResult` has no `attemptsMade` field at all. -/
theorem c3_retry_counterexample :
    (drain (alwaysFail (R := Nat) ErrorKind.transient) [⟨0, 0, 1⟩]).length = 2 ∧
    ((drain (alwaysFail (R := Nat) ErrorKind.transient) [⟨0, 0, 1⟩]).filter
        (fun r => r.status = WStatus.error)).length ≠ 1 := by
  decide

/-- C3 amended: a sub-call that always fails with `Transient` is
attempted `maxRetries + 1` times (re-queued exactly `maxRetries` times);
each attempt records one `ERROR` `WorkerResult`, so `maxRetries + 1`
identical error records result — there is no single terminal
`FailureRecord` and no `attemptsMade` field. -/
theorem c3_retry_amended (R : Type) (e : ErrorKind) (id maxRetries : Nat) :
    drain (alwaysFail (R := R) e) [⟨id, 0, maxRetries⟩] =
      List.replicate (maxRetries + 1) ⟨id, WStatus.error, none, some e⟩ :=
  drain_alwaysFail e id maxRetries 0 maxRetries rfl

/-- C4 counterexample: under drain-to-completion, the always-failing
sub-call of index 5 with `maxRetries = 2` yields three `ERROR` records —
index 5 does not transition into a terminal state exactly once. -/
theorem c4_terminal_once_counterexample :
    ((drain (alwaysFail (R := Nat) ErrorKind.transient) [⟨5, 0, 2⟩]).filter
        (fun r => r.taskId = 5)).length = 3 ∧
    ((drain (alwaysFail (R := Nat) ErrorKind.transient) [⟨5, 0, 2⟩]).filter
        (fun r => r.taskId = 5)).length ≠ 1 := by
  decide

/-- C4 amended: a re-queued sub-call is the same record — same `id`,
same `maxRetries` — with `retryCount` incremented by one, never a
duplicate; but an index whose attempts keep failing yields one `ERROR`
`WorkerResult` per attempt rather than exactly one terminal record. -/
theorem c4_requeue_same_record {E R : Type} (procFn : Nat → Except E R)
    (t t' : WorkerTask) (h : (processSingleTask procFn t).2 = some t') :
    t'.id = t.id ∧ t'.retryCount = t.retryCount + 1 ∧ t'.maxRetries = t.maxRetries := by
  obtain ⟨ha, hb, hc, _⟩ := processSingleTask_requeue procFn t t' h
  exact ⟨ha, hb, hc⟩

/-- Witness for C4's amended theorem: the failing task `⟨3, 0, 2⟩` is
re-queued as `⟨3, 1, 2⟩`. -/
theorem c4_requeue_same_record_witness :
    (⟨3, 1, 2⟩ : WorkerTask).id = (⟨3, 0, 2⟩ : WorkerTask).id ∧
    (⟨3, 1, 2⟩ : WorkerTask).retryCount = (⟨3, 0, 2⟩ : WorkerTask).retryCount + 1 ∧
    (⟨3, 1, 2⟩ : WorkerTask).maxRetries = (⟨3, 0, 2⟩ : WorkerTask).maxRetries :=
  c4_requeue_same_record (alwaysFail (R := Nat) ErrorKind.transient) ⟨3, 0, 2⟩ ⟨3, 1, 2⟩
    (by decide)

/-- C5 counterexample: with sub-call 0 failing and sub-call 1 succeeding
(`maxRetries = 0`), `generate_batch` builds the itemized failed list but
returns only the success payloads to its caller — the failure record is
absent from the returned value. -/
theorem c5_partial_failure_counterexample :
    generateBatchReturn (drain
        (fun i => if i = 0 then Except.error ErrorKind.transient else Except.ok i)
        [⟨0, 0, 0⟩, ⟨1, 0, 0⟩]) = [1] ∧
    generateBatchFailed (drain
        (fun i => if i = 0 then Except.error ErrorKind.transient else Except.ok i)
        [⟨0, 0, 0⟩, ⟨1, 0, 0⟩]) = [(0, some ErrorKind.transient)] := by
  decide

/-- C5 amended: a failing sub-call never aborts the batch — every
sub-call in the queue is drained to at least one recorded result — but
the final value handed to the caller by `generate_batch` is the success
payloads only; the itemized failures are printed, not returned. -/
theorem c5_no_abort_drains_all {E R : Type} (procFn : Nat → Except E R)
    (q : List WorkerTask) (t : WorkerTask) (ht : t ∈ q) :
    ∃ r ∈ drain procFn q, r.taskId = t.id :=
  drain_covers procFn (queueMeasure q) q (le_refl _) t ht

/-- Witness for C5's amended theorem: task 2 is drained even though its
call always fails. -/
theorem c5_no_abort_drains_all_witness :
    ∃ r ∈ drain (alwaysFail (R := Nat) ErrorKind.transient) [⟨2, 0, 0⟩],
      r.taskId = (⟨2, 0, 0⟩ : WorkerTask).id :=
  c5_no_abort_drains_all (alwaysFail (R := Nat) ErrorKind.transient) [⟨2, 0, 0⟩]
    ⟨2, 0, 0⟩ (by decide)

/-- C6 counterexample: `generate_stream` yields through
`asyncio.as_completed`, i.e. in completion order; when task 1 completes
before task 0 the emitted index sequence is `[1, 0]`, not sorted by
index — no sort is applied before handing results to the consumer. -/
theorem c6_ordering_counterexample :
    (streamEmissions (fun _ => true) [1, 0]).map Prod.fst = [1, 0] ∧
    ¬ List.Sorted (· ≤ ·) ((streamEmissions (fun _ => true) [1, 0]).map Prod.fst) := by
  constructor
  · rfl
  · decide

/-- C6 amended: `WorkerPool.process_tasks_async` awaits its futures in
submission order, so with no failures the collected results follow the
original task order (hence index order for an index-ordered queue)
regardless of completion timing; `generate_stream`, however, emits in
completion order with no sorting. -/
theorem c6_ordering_amended {E R : Type} (procFn : Nat → Except E R)
    (hok : ∀ i, ∃ r, procFn i = Except.ok r) (q : List WorkerTask)
    (success : Nat → Bool) (completionOrder : List Nat) :
    (drain procFn q).map (fun r => (r.taskId, r.status)) =
      q.map (fun t => (t.id, WStatus.completed)) ∧
    (streamEmissions success completionOrder).map Prod.fst = completionOrder :=
  ⟨drain_allOk procFn hok q, streamEmissions_fst success completionOrder⟩

/-- Witness for C6's amended theorem: two succeeding tasks keep
submission order; a stream completing as `[1, 0]` emits `[1, 0]`. -/
theorem c6_ordering_amended_witness :
    (drain (fun i => (Except.ok i : Except ErrorKind Nat)) [⟨0, 0, 3⟩, ⟨1, 0, 3⟩]).map
        (fun r => (r.taskId, r.status)) =
      ([⟨0, 0, 3⟩, ⟨1, 0, 3⟩] : List WorkerTask).map (fun t => (t.id, WStatus.completed)) ∧
    (streamEmissions (fun _ => true) [1, 0]).map Prod.fst = [1, 0] :=
  c6_ordering_amended (fun i => (Except.ok i : Except ErrorKind Nat))
    (fun i => ⟨i, rfl⟩) [⟨0, 0, 3⟩, ⟨1, 0, 3⟩] (fun _ => true) [1, 0]

/-- C7 counterexample: the worker retry logic never inspects the raised
error — a sub-call failing with the non-retriable kind `InvalidRequest`
(`retryCount = 0 < maxRetries = 1`) IS re-queued, and the drained run
makes 2 attempts, not 1. -/
theorem c7_nonretriable_counterexample :
    (processSingleTask (alwaysFail (R := Nat) ErrorKind.invalidRequest)
        (⟨0, 0, 1⟩ : WorkerTask)).2 = some ⟨0, 1, 1⟩ ∧
    (drain (alwaysFail (R := Nat) ErrorKind.invalidRequest) [⟨0, 0, 1⟩]).length = 2 := by
  decide

/-- C7 amended: the retry decision is a pure function of
`(retryCount, maxRetries)` alone — any failing sub-call is re-enqueued
iff `retryCount < maxRetries`, and the decision is identical for every
error kind (the code never classifies the exception). -/
theorem c7_retry_decision_pure {E R : Type} (e e' : E) (t : WorkerTask) :
    (processSingleTask (fun _ => (Except.error e : Except E R)) t).2 =
      (if t.retryCount < t.maxRetries then
        some ⟨t.id, t.retryCount + 1, t.maxRetries⟩ else none) ∧
    (processSingleTask (fun _ => (Except.error e : Except E R)) t).2 =
      (processSingleTask (fun _ => (Except.error e' : Except E R)) t).2 := by
  unfold processSingleTask
  by_cases h : t.retryCount < t.maxRetries <;> simp [h]

/-- C8 counterexample: stopping with sub-call 0 still pending leaves it
in the dropped queue with no result record — no `BatchOutcome`, no
`wasCancelled` flag, and no synthetic `Cancelled` failure is produced
anywhere. -/
theorem c8_cancel_counterexample :
    (stopRun ⟨[0], [], true⟩).queue = [0] ∧
    (stopRun ⟨[0], [], true⟩).results = [] := by
  decide

/-- C8 amended: `stop` clears the running flag and halts admission — a
processing step requires the running flag — but it neither drains nor
accounts for pending sub-calls: the queue and the delivered results are
left exactly as they were, with no `wasCancelled` outcome and no
`Cancelled` records for unresolved sub-calls. -/
theorem c8_cancel_amended (s : RunState) (outcome : Nat → Bool) (s₁ s₂ : RunState)
    (h : RunStep outcome s₁ s₂) :
    (stopRun s).running = false ∧ (stopRun s).results = s.results ∧
      (stopRun s).queue = s.queue ∧ s₁.running = true := by
  refine ⟨rfl, rfl, rfl, ?_⟩
  cases h
  rfl

/-- Witness for C8's amended theorem, at a stopped state with one
pending item and a concrete processing step. -/
theorem c8_cancel_amended_witness :
    (stopRun ⟨[1], [], true⟩).running = false ∧
    (stopRun ⟨[1], [], true⟩).results = (⟨[1], [], true⟩ : RunState).results ∧
    (stopRun ⟨[1], [], true⟩).queue = (⟨[1], [], true⟩ : RunState).queue ∧
    (⟨[0], [], true⟩ : RunState).running = true :=
  c8_cancel_amended ⟨[1], [], true⟩ (fun _ => true) ⟨[0], [], true⟩ _
    (RunStep.proc 0 [] [])

/-- C10: the synchronous wrappers are total at the worker boundary —
every backend outcome maps to a `GenerationResult`: on success the urls
are present and the cost is the computed table cost; on failure the
error message is present. -/
theorem c10_sync_wrappers_total
    (callG : GenRequest → Except String (List String × Option String))
    (callV : VarRequest → Except String (List String))
    (callE : EditRequest → Except String (List String))
    (reqG : GenRequest) (reqV : VarRequest) (reqE : EditRequest) :
    (((syncGenerate callG reqG).success = true ∧
        (syncGenerate callG reqG).image_urls.isSome = true ∧
        (syncGenerate callG reqG).cost = calculateCost reqG.size reqG.quality reqG.n) ∨
      ((syncGenerate callG reqG).success = false ∧
        (syncGenerate callG reqG).error.isSome = true)) ∧
    (((syncVariation callV reqV).success = true ∧
        (syncVariation callV reqV).image_urls.isSome = true ∧
        (syncVariation callV reqV).cost = calculateVariationCost reqV.size reqV.n) ∨
      ((syncVariation callV reqV).success = false ∧
        (syncVariation callV reqV).error.isSome = true)) ∧
    (((syncEdit callE reqE).success = true ∧
        (syncEdit callE reqE).image_urls.isSome = true ∧
        (syncEdit callE reqE).cost = calculateEditCost reqE.size reqE.n) ∨
      ((syncEdit callE reqE).success = false ∧
        (syncEdit callE reqE).error.isSome = true)) := by
  refine ⟨?_, ?_, ?_⟩
  · cases h : callG reqG with
    | ok v =>
        obtain ⟨urls, rev⟩ := v
        left
        simp [syncGenerate, h]
    | error e =>
        right
        simp [syncGenerate, h]
  · cases h : callV reqV with
    | ok urls =>
        left
        simp [syncVariation, h]
    | error e =>
        right
        simp [syncVariation, h]
  · cases h : callE reqE with
    | ok urls =>
        left
        simp [syncEdit, h]
    | error e =>
        right
        simp [syncEdit, h]

end DalleSpec
